import Mathlib

/-!
Shallow embedding of the retrieval / extraction / ranking / synthesis core of
the Research Agent repository (files `source/utils.py` and `db.py`), together
with theorems settling the specification claims about it.

Python strings are modelled as `List Char`; Python `str.split()` (split on
whitespace runs, dropping empty pieces) and `sep.join(...)` are modelled by
`pySplit` and `pyJoin` below.  External services (HTTP requests, the search
providers, the embedding model, the LLM) are modelled as explicit environment
values: a fallible call is an `Except Unit α` (or `Except (List Char) α` when
the error text matters), and responses already parsed by external libraries
are provided in parsed form.
-/

/-- Result of flushing the word accumulated (in reverse) while scanning:
the empty accumulator yields no word, mirroring how Python `split()` drops
empty pieces between consecutive whitespace characters. -/
def flushWord (acc : List Char) : List (List Char) :=
  if acc.isEmpty then [] else [acc.reverse]

/-- Scanner for Python `str.split()` (no separator argument): walks the
character list keeping the current word reversed in `acc`; whitespace flushes
the word. -/
def splitAux : List Char → List Char → List (List Char)
  | [], acc => flushWord acc
  | c :: cs, acc =>
    if c.isWhitespace then flushWord acc ++ splitAux cs []
    else splitAux cs (c :: acc)

/-- Python `text.split()`: split on runs of whitespace, dropping empties. -/
def pySplit (s : List Char) : List (List Char) := splitAux s []

/-- Python `sep.join(pieces)`. -/
def pyJoin (sep : List Char) : List (List Char) → List Char
  | [] => []
  | [w] => w
  | w :: ws => w ++ sep ++ pyJoin sep ws

theorem flushWord_nil : flushWord [] = [] := rfl

theorem splitAux_ws_cons (c : Char) (hc : c.isWhitespace) (cs acc : List Char) :
    splitAux (c :: cs) acc = flushWord acc ++ splitAux cs [] := by
  simp [splitAux, hc]

theorem splitAux_nonws_cons (c : Char) (hc : ¬ c.isWhitespace) (cs acc : List Char) :
    splitAux (c :: cs) acc = splitAux cs (c :: acc) := by
  simp [splitAux, hc]

/-- Splitting distributes over appending at a whitespace character: the
whitespace boundary flushes whatever word is in progress. -/
theorem splitAux_append_ws (c : Char) (hc : c.isWhitespace) (t : List Char) :
    ∀ (s acc : List Char),
      splitAux (s ++ c :: t) acc = splitAux s acc ++ splitAux t [] := by
  intro s
  induction s with
  | nil =>
    intro acc
    simp only [List.nil_append, splitAux_ws_cons c hc]
    rfl
  | cons a s ih =>
    intro acc
    by_cases ha : a.isWhitespace
    · simp only [List.cons_append, splitAux_ws_cons a ha, ih, List.append_assoc]
    · simp only [List.cons_append, splitAux_nonws_cons a ha, ih]

/-- Scanning a run of non-whitespace characters just accumulates them. -/
theorem splitAux_word (w : List Char) (hw : ∀ c ∈ w, ¬ c.isWhitespace) :
    ∀ (s acc : List Char), splitAux (w ++ s) acc = splitAux s (w.reverse ++ acc) := by
  induction w with
  | nil => intro s acc; simp
  | cons c w ih =>
    intro s acc
    have hc : ¬ c.isWhitespace := hw c (List.mem_cons_self c w)
    have hw' : ∀ x ∈ w, ¬ x.isWhitespace := fun x hx => hw x (List.mem_cons_of_mem c hx)
    simp only [List.cons_append, splitAux_nonws_cons c hc, ih hw',
      List.reverse_cons, List.append_assoc, List.singleton_append, List.nil_append]

/-- A single non-empty whitespace-free word splits to itself. -/
theorem pySplit_single_word (w : List Char) (hne : w ≠ [])
    (hw : ∀ c ∈ w, ¬ c.isWhitespace) : pySplit w = [w] := by
  have h := splitAux_word w hw [] []
  simp only [List.append_nil] at h
  unfold pySplit
  rw [h]
  simp [splitAux, flushWord, List.isEmpty_eq_true, hne]

/-- Joining non-empty whitespace-free words with single spaces and splitting
again recovers the word list (the round trip behind idempotence of the hard
truncator). -/
theorem pySplit_pyJoin_space (ws : List (List Char))
    (h : ∀ w ∈ ws, w ≠ [] ∧ ∀ c ∈ w, ¬ c.isWhitespace) :
    pySplit (pyJoin [' '] ws) = ws := by
  induction ws with
  | nil => rfl
  | cons w ws ih =>
    match ws, ih with
    | [], _ =>
      exact pySplit_single_word w (h w (List.mem_cons_self _ _)).1
        (h w (List.mem_cons_self _ _)).2
    | w' :: ws', ih =>
      have hw := h w (List.mem_cons_self _ _)
      have hrest : ∀ x ∈ w' :: ws', x ≠ [] ∧ ∀ c ∈ x, ¬ c.isWhitespace :=
        fun x hx => h x (List.mem_cons_of_mem _ hx)
      have hjoin : pyJoin [' '] (w :: w' :: ws') = w ++ ' ' :: pyJoin [' '] (w' :: ws') := by
        simp [pyJoin]
      unfold pySplit
      rw [hjoin, splitAux_word w hw.2, splitAux_ws_cons ' ' (by decide)]
      have : flushWord (w.reverse ++ []) = [w] := by
        simp [flushWord, List.isEmpty_eq_true, hw.1]
      rw [this]
      have := ih hrest
      unfold pySplit at this
      rw [this]
      rfl

/-- Every word produced by the splitter is non-empty and whitespace-free. -/
theorem pySplit_words_wf (s : List Char) :
    ∀ w ∈ pySplit s, w ≠ [] ∧ ∀ c ∈ w, ¬ c.isWhitespace := by
  suffices h : ∀ (s acc : List Char), (∀ c ∈ acc, ¬ c.isWhitespace) →
      ∀ w ∈ splitAux s acc, w ≠ [] ∧ ∀ c ∈ w, ¬ c.isWhitespace by
    intro w hw
    exact h s [] (by simp) w hw
  intro s
  induction s with
  | nil =>
    intro acc hacc w hw
    simp only [splitAux, flushWord] at hw
    by_cases he : acc.isEmpty
    · simp [he] at hw
    · simp only [he, if_neg, Bool.false_eq_true, if_false, List.mem_singleton] at hw
      subst hw
      refine ⟨?_, ?_⟩
      · simp only [ne_eq, List.reverse_eq_nil_iff]
        intro hnil
        rw [hnil] at he
        exact he rfl
      · intro c hc
        exact hacc c (List.mem_reverse.mp hc)
  | cons a s ih =>
    intro acc hacc w hw
    by_cases ha : a.isWhitespace
    · rw [splitAux_ws_cons a ha] at hw
      rcases List.mem_append.mp hw with h1 | h2
      · simp only [flushWord] at h1
        by_cases he : acc.isEmpty
        · simp [he] at h1
        · simp only [he, Bool.false_eq_true, if_false, List.mem_singleton] at h1
          subst h1
          refine ⟨?_, ?_⟩
          · simp only [ne_eq, List.reverse_eq_nil_iff]
            intro hnil
            rw [hnil] at he
            exact he rfl
          · intro c hc
            exact hacc c (List.mem_reverse.mp hc)
      · exact ih [] (by simp) w h2
    · rw [splitAux_nonws_cons a ha] at hw
      refine ih (a :: acc) ?_ w hw
      intro c hc
      rcases List.mem_cons.mp hc with h1 | h2
      · subst h1; exact ha
      · exact hacc c h2

/-- Splitting the blank-line join of arbitrary documents yields the
concatenation of each document's own split (the newline separators never glue
words of neighbouring documents together). -/
theorem pySplit_pyJoin_newlines (docs : List (List Char)) :
    pySplit (pyJoin ['\n', '\n'] docs) = docs.flatMap pySplit := by
  induction docs with
  | nil => rfl
  | cons d ds ih =>
    match ds, ih with
    | [], _ => simp [pyJoin, List.flatMap]
    | d' :: ds', ih =>
      have hjoin : pyJoin ['\n', '\n'] (d :: d' :: ds') =
          d ++ '\n' :: ('\n' :: pyJoin ['\n', '\n'] (d' :: ds')) := by
        simp [pyJoin]
      unfold pySplit
      rw [hjoin, splitAux_append_ws '\n' (by decide), splitAux_ws_cons '\n' (by decide)]
      unfold pySplit at ih
      simp only [flushWord_nil, List.nil_append, ih, List.flatMap_cons]

-- `ResearchHelpFunctions.MAX_WORD_LIMIT` in `source/utils.py`.
def MAX_WORD_LIMIT : Nat := 9000

-- The truncation marker appended by `truncate_context`.
def TRUNC_MARKER : List Char := "\n\n...[TRUNCATED]".toList

/-- `ResearchHelpFunctions.truncate_context` from `source/utils.py`:
words = text.split(); return join of the first `MAX_WORD_LIMIT` words plus the
marker when the word count exceeds the limit. -/
def truncate_context (text : List Char) : List Char :=
  let words := pySplit text
  pyJoin [' '] (words.take MAX_WORD_LIMIT) ++
    (if MAX_WORD_LIMIT < words.length then TRUNC_MARKER else [])

/-- The split of a space-join of well-formed words followed by the truncation
marker is the word list with one extra word, the bracketed marker word. -/
theorem pySplit_join_marker (ws : List (List Char))
    (h : ∀ w ∈ ws, w ≠ [] ∧ ∀ c ∈ w, ¬ c.isWhitespace) :
    pySplit (pyJoin [' '] ws ++ TRUNC_MARKER) = ws ++ ["...[TRUNCATED]".toList] := by
  have hmarker : TRUNC_MARKER = '\n' :: '\n' :: "...[TRUNCATED]".toList := by decide
  unfold pySplit
  rw [hmarker, splitAux_append_ws '\n' (by decide), splitAux_ws_cons '\n' (by decide)]
  have h1 : splitAux (pyJoin [' '] ws) [] = ws := pySplit_pyJoin_space ws h
  have h2 : splitAux "...[TRUNCATED]".toList [] = ["...[TRUNCATED]".toList] := by decide
  rw [h1, flushWord_nil, List.nil_append, h2]

/-!
`ResearchHelpFunctions.rank_and_select_contexts` from `source/utils.py`.
The sentence-embedding model and `util.cos_sim` are external services; they
are modelled as an oracle `sim : query → doc → ℚ` giving the cosine score of
a document against the query.  Python `list.sort(reverse=True, key=score)` is
a stable descending sort by score, modelled by a stable insertion sort under
the relation "score of the left is at least score of the right".
-/

/-- Scored documents sorted descending by score, stably (ties keep input
order), then projected back to the documents: the `ranked` list of the
source. -/
def rankedDocs (sim : List Char → List Char → ℚ) (query : List Char)
    (docs : List (List Char)) : List (List Char) :=
  (List.insertionSort (fun a b : ℚ × List Char => b.1 ≤ a.1)
    (docs.map (fun d => (sim query d, d)))).map Prod.snd

/-- The greedy selection loop of `rank_and_select_contexts`: walk the ranked
documents keeping a running word total; the first document whose full word
count would push the total past `MAX_WORD_LIMIT` stops the loop (the `break`
in the source). -/
def select_contexts : List (List Char) → Nat → List (List Char)
  | [], _ => []
  | doc :: rest, total =>
    let words := pySplit doc
    if MAX_WORD_LIMIT < total + words.length then []
    else doc :: select_contexts rest (total + words.length)

/-- `rank_and_select_contexts`: rank by score, greedily select under the word
budget, and join the selected documents with a blank line. -/
def rank_and_select_contexts (sim : List Char → List Char → ℚ) (query : List Char)
    (docs : List (List Char)) : List Char :=
  pyJoin ['\n', '\n'] (select_contexts (rankedDocs sim query docs) 0)

/-- Total word count of a document list. -/
def totalWords (docs : List (List Char)) : Nat :=
  (docs.map (fun d => (pySplit d).length)).sum

/-- The greedy selection is always an initial segment of the ranked list:
once one document is refused, nothing after it is selected. -/
theorem select_contexts_eq_take (l : List (List Char)) :
    ∀ total, ∃ k, select_contexts l total = l.take k := by
  induction l with
  | nil => intro total; exact ⟨0, rfl⟩
  | cons doc rest ih =>
    intro total
    by_cases h : MAX_WORD_LIMIT < total + (pySplit doc).length
    · exact ⟨0, by simp [select_contexts, h]⟩
    · obtain ⟨k, hk⟩ := ih (total + (pySplit doc).length)
      exact ⟨k + 1, by simp [select_contexts, h, hk]⟩

/-- Budget invariant of the greedy selection: starting from a running total
within budget, the selected documents never push the total past the cap. -/
theorem select_contexts_budget (l : List (List Char)) :
    ∀ total, total ≤ MAX_WORD_LIMIT →
      total + totalWords (select_contexts l total) ≤ MAX_WORD_LIMIT := by
  induction l with
  | nil => intro total h; simpa [select_contexts, totalWords] using h
  | cons doc rest ih =>
    intro total h
    by_cases hgt : MAX_WORD_LIMIT < total + (pySplit doc).length
    · simpa [select_contexts, hgt, totalWords] using h
    · push_neg at hgt
      have := ih (total + (pySplit doc).length) hgt
      unfold totalWords at this ⊢
      simp only [select_contexts, if_neg (not_lt.mpr hgt), List.map_cons, List.sum_cons]
      omega

/-- Word count of the blank-line join is the sum of the word counts. -/
theorem pySplit_length_join (docs : List (List Char)) :
    (pySplit (pyJoin ['\n', '\n'] docs)).length = totalWords docs := by
  rw [pySplit_pyJoin_newlines]
  unfold totalWords
  induction docs with
  | nil => rfl
  | cons d ds ih => simp [List.flatMap_cons, ih]

/-!
`ARXIV_VALID_REGEX` of `source/utils.py` is the compiled pattern
`https?://arxiv\.org/abs/\d{4}\.\d{5}(v\d+)?`, always used through
`re.match(...)` in boolean position.  Python `re.match` anchors at the start
of the string only: it succeeds whenever some PREFIX of the string matches
the pattern, so trailing characters after the matched prefix are irrelevant,
and the optional version group `(v\d+)?` never affects whether a match
exists.  The boolean result is therefore: the string starts with
`http`, an optional `s`, `://arxiv.org/abs/`, four digits, a dot, and five
digits.
-/

/-- Drop an expected literal sequence of characters, or fail. -/
def dropLit : List Char → List Char → Option (List Char)
  | [], s => some s
  | _ :: _, [] => none
  | c :: p, d :: s => if c = d then dropLit p s else none

/-- Consume exactly `n` ASCII digits, or fail. -/
def dropDigits : Nat → List Char → Option (List Char)
  | 0, s => some s
  | _ + 1, [] => none
  | n + 1, c :: s => if c.isDigit then dropDigits n s else none

/-- Truth value of `ARXIV_VALID_REGEX.match(u)`. -/
def arxivValidMatch (u : List Char) : Bool :=
  match dropLit "http".toList u with
  | none => false
  | some r =>
    let r := match r with
      | 's' :: r => r
      | r => r
    match dropLit "://arxiv.org/abs/".toList r with
    | none => false
    | some r =>
      match dropDigits 4 r with
      | none => false
      | some ('.' :: r) =>
        match dropDigits 5 r with
        | none => false
        | some _ => true
      | some _ => false

/-- Modelled from the spec and claim wording, for comparison with the source
behaviour: the strict validator as the claim reads it, where the URL must
consist of the abs-page pattern and NOTHING ELSE, i.e. the optional version
suffix (a `v` followed by one or more digits) must be followed by the end of
the string. -/
def arxivFullMatch (u : List Char) : Bool :=
  match dropLit "http".toList u with
  | none => false
  | some r =>
    let r := match r with
      | 's' :: r => r
      | r => r
    match dropLit "://arxiv.org/abs/".toList r with
    | none => false
    | some r =>
      match dropDigits 4 r with
      | none => false
      | some ('.' :: r) =>
        match dropDigits 5 r with
        | none => false
        | some [] => true
        | some ('v' :: rest) => !rest.isEmpty && rest.all Char.isDigit
        | some _ => false
      | some _ => false

-- The literal `"arxiv.org/abs/"` tested with the Python `in` operator.
def ARXIV_ABS_SUBSTR : List Char := "arxiv.org/abs/".toList

/-- Python substring membership `needle in haystack`: some position of the
haystack starts with the needle. -/
def hasSub (needle : List Char) : List Char → Bool
  | [] => needle.isEmpty
  | c :: rest => (dropLit needle (c :: rest)).isSome || hasSub needle rest

/-!
Search providers (`source/utils.py`).  Each provider wraps one external HTTP
call; the call outcome is supplied as an `Except Unit` environment value whose
`ok` payload is the response already parsed by the external client library
(`response.json()` fields, the XML entries split out of the arXiv feed, the
result dictionaries of the DuckDuckGo client, the URL list of the Google
client).  An `error` value stands for any raised exception: network error,
timeout, bad HTTP status, malformed payload.
-/

/-- One parsed item of the Brave `web.results` array: its optional `url`
field (`None` when the key is absent). -/
abbrev BraveItem := Option (List Char)

/-- `brave_search`: on success, if the response has `web.results`, keep the
truthy `url` fields (absent and empty-string URLs are dropped by the
`if r.get("url")` guard); otherwise, and on any exception, return `[]`.
The rate-limiter sleep before the call only delays and is not modelled. -/
def brave_search (_query : List Char)
    (resp : Except Unit (Option (List BraveItem))) : List (List Char) :=
  match resp with
  | .error _ => []
  | .ok none => []
  | .ok (some items) =>
    items.filterMap (fun it =>
      match it with
      | none => none
      | some u => if u.isEmpty then none else some u)

/-- Keep only the characters matched by Python character class `[a-zA-Z0-9 ]`
(the complement of what `re.sub(r"[^a-zA-Z0-9 ]", "", _)` deletes). -/
def keepAlnumSpace (s : List Char) : List Char :=
  s.filter (fun c => c.isAlphanum || c == ' ')

/-- Normalized keyword tokens of the query:
`re.sub(r"[^a-zA-Z0-9 ]", "", query).lower().split()`. -/
def queryKeywords (q : List Char) : List (List Char) :=
  pySplit ((keepAlnumSpace q).map Char.toLower)

/-- Normalized tokens of an already-lowercased title:
`re.sub(r"[^a-zA-Z0-9 ]", "", title).split()`. -/
def titleTokens (title : List Char) : List (List Char) :=
  pySplit (keepAlnumSpace title)

/-- One `<entry>` block of the arXiv feed, as extracted by the string surgery
of the source: `none` when the block lacks an `<id>` or `<title>` tag, else
the URL (with `/api/` already replaced by `/abs/`) and the raw title. -/
abbrev ArxivEntry := Option (List Char × List Char)

/-- `search_arvix`: on success, keep an entry's URL when the URL passes
`ARXIV_VALID_REGEX.match` and the normalized query keywords intersect the
normalized tokens of the lowercased title; on any exception return `[]`. -/
def search_arvix (query : List Char)
    (resp : Except Unit (List ArxivEntry)) : List (List Char) :=
  match resp with
  | .error _ => []
  | .ok entries =>
    let qkw := queryKeywords query
    entries.filterMap (fun e =>
      match e with
      | none => none
      | some (rawUrl, rawTitle) =>
        let title := rawTitle.map Char.toLower
        if arxivValidMatch rawUrl &&
            qkw.any (fun w => (titleTokens title).contains w) then
          some rawUrl
        else none)

/-- One paper of the Semantic Scholar `data` array: its optional `url` field.
Presence is tested with `"url" in paper`, so an empty-string URL is kept. -/
abbrev ScholarPaper := Option (List Char)

/-- `semantic_search_scholar`: on success, the `url` fields present in
`data.get("data", [])`; on any exception return `[]`. -/
def semantic_search_scholar (_query : List Char)
    (resp : Except Unit (Option (List ScholarPaper))) : List (List Char) :=
  match resp with
  | .error _ => []
  | .ok none => []
  | .ok (some papers) => papers.filterMap id

/-- One DuckDuckGo text result: its optional `href` field. -/
abbrev DdgItem := Option (List Char)

/-- The retry loop of `search_duckduckgo`: the first attempt that does not
raise returns its `href` fields (even when that list is empty); a raising
attempt falls through to the next; `[]` after the attempts are exhausted. -/
def ddgAttempts : List (Except Unit (List DdgItem)) → List (List Char)
  | [] => []
  | .ok items :: _ => items.filterMap id
  | .error _ :: rest => ddgAttempts rest

/-- `search_duckduckgo` with its default `retries=3`: at most three attempt
outcomes are consumed.  The randomized politeness sleep before each attempt
only delays and is not modelled. -/
def search_duckduckgo (_query : List Char)
    (attempts : List (Except Unit (List DdgItem))) : List (List Char) :=
  ddgAttempts (attempts.take 3)

/-- `search_google`: the URL list of the client on success, `[]` on any
exception. -/
def search_google (_query : List Char)
    (resp : Except Unit (List (List Char))) : List (List Char) :=
  match resp with
  | .error _ => []
  | .ok urls => urls

/-- Outcomes of the five external search calls for one query. -/
structure SearchEnv where
  brave : Except Unit (Option (List BraveItem))
  arvix : Except Unit (List ArxivEntry)
  scholar : Except Unit (Option (List ScholarPaper))
  ddg : List (Except Unit (List DdgItem))
  google : Except Unit (List (List Char))

/-- The per-URL filter of `robust_search`: a URL containing
`"arxiv.org/abs/"` that fails the strict validator is skipped. -/
def acceptUrl (u : List Char) : Bool :=
  !(hasSub ARXIV_ABS_SUBSTR u && !arxivValidMatch u)

/-- The provider loop of `robust_search`: `urls` accumulates the accepted
URLs of each provider in turn and the loop breaks as soon as `urls` is
non-empty after a provider (the 5-second politeness sleep before the break
only delays and is not modelled). -/
def robustLoop (urls : List (List Char)) :
    List (List (List Char)) → List (List Char)
  | [] => urls
  | r :: rest =>
    let urls := urls ++ r.filter acceptUrl
    if urls.isEmpty then robustLoop urls rest else urls

/-- The provider results in the fixed priority order of `search_functions`. -/
def providerResults (query : List Char) (env : SearchEnv) :
    List (List (List Char)) :=
  [brave_search query env.brave,
   search_arvix query env.arvix,
   semantic_search_scholar query env.scholar,
   search_duckduckgo query env.ddg,
   search_google query env.google]

/-- `robust_search` from `source/utils.py`. -/
def robust_search (query : List Char) (env : SearchEnv) : List (List Char) :=
  robustLoop [] (providerResults query env)

/-- Starting from an empty accumulator, the provider loop returns the
accepted URLs of the first provider whose accepted URLs are non-empty, and
the empty list when no provider has any. -/
theorem robustLoop_eq_find (rs : List (List (List Char))) :
    robustLoop [] rs =
      ((rs.map (fun r => r.filter acceptUrl)).find? (fun l => !l.isEmpty)).getD [] := by
  induction rs with
  | nil => rfl
  | cons r rest ih =>
    have hstep : robustLoop [] (r :: rest) =
        if (r.filter acceptUrl).isEmpty then robustLoop (r.filter acceptUrl) rest
        else r.filter acceptUrl := by
      simp [robustLoop]
    by_cases h : (r.filter acceptUrl).isEmpty
    · have hr : r.filter acceptUrl = [] := List.isEmpty_iff.mp h
      rw [hstep, if_pos h, hr, ih]
      simp [List.find?_cons, hr]
    · rw [hstep, if_neg h]
      have hb : (!(r.filter acceptUrl).isEmpty) = true := by
        simp only [Bool.not_eq_true'] at *
        simpa using h
      simp [List.find?_cons, hb]

/-!
`ResearchHelpFunctions.fetch_full_text` from `source/utils.py`.  The three
extraction strategies wrap external calls (an HTTP GET whose body is parsed
for paragraph text, the newspaper3k article extractor, a Playwright-rendered
page parsed for paragraph text); each outcome is supplied as an environment
value, `error` standing for any raised exception.  For the direct fetch, the
`ok` payload is the HTTP status code paired with the newline-join of the
non-blank paragraph texts of the body.
-/

/-- Outcomes of the three extraction attempts for one URL. -/
structure FetchEnv where
  request : Except Unit (Nat × List Char)
  article : Except Unit (List Char)
  rendered : Except Unit (List Char)

/-- `fetch_full_text`: reject invalid arXiv abs-page URLs up front; then the
direct fetch returns its paragraph text on HTTP 200 (without inspecting
whether that text is empty); a non-200 status or an exception falls through
to the article extractor, whose text is returned whenever it does not raise;
an exception there falls through to the rendered-page extraction; and the
empty string is returned when that also raises. -/
def fetch_full_text (env : FetchEnv) (url : List Char) : List Char :=
  if hasSub ARXIV_ABS_SUBSTR url && !arxivValidMatch url then []
  else
    match env.request with
    | .ok (status, text) =>
      if status = 200 then text
      else
        match env.article with
        | .ok t => t
        | .error _ =>
          match env.rendered with
          | .ok t => t
          | .error _ => []
    | .error _ =>
      match env.article with
      | .ok t => t
      | .error _ =>
        match env.rendered with
        | .ok t => t
        | .error _ => []

/-- Modelled from the spec and claim wording, for comparison with the source
behaviour: an extractor that tries the three strategies in order and stops
only at the first strategy yielding NON-EMPTY text, so that a strategy which
completes with empty text falls through to the next one. -/
def fetch_full_text_spec (env : FetchEnv) (url : List Char) : List Char :=
  if hasSub ARXIV_ABS_SUBSTR url && !arxivValidMatch url then []
  else
    let texts : List (List Char) :=
      [match env.request with
       | .ok (status, text) => if status = 200 then text else []
       | .error _ => [],
       match env.article with
       | .ok t => t
       | .error _ => [],
       match env.rendered with
       | .ok t => t
       | .error _ => []]
    ((texts.find? (fun t => !t.isEmpty)).getD [])

/-- The outcome of each strategy, `none` when it contributes nothing by
itself (an exception, or a non-200 status for the direct fetch) and `some`
of its text — possibly empty — when it completes. -/
def strategyOutcomes (env : FetchEnv) : List (Option (List Char)) :=
  [match env.request with
   | .ok (status, text) => if status = 200 then some text else none
   | .error _ => none,
   match env.article with
   | .ok t => some t
   | .error _ => none,
   match env.rendered with
   | .ok t => some t
   | .error _ => none]

/-!
`create_sub_agents` / `sub_agent_fn` from `source/utils.py`.  The LLM call is
an external service: its outcome is an `Except` whose error payload is the
exception text interpolated into the failure placeholder.  The similarity
oracle of the ranking step and the per-URL extraction outcomes are part of
the environment.
-/

/-- Environment of one synthesis call. -/
structure AgentEnv where
  search : SearchEnv
  fetch : List Char → FetchEnv
  sim : List Char → List Char → ℚ
  llm : Except (List Char) (List Char)

/-- The dictionary returned by `sub_agent_fn`. -/
structure SectionResult where
  result : List Char
  sources : List (List Char)
deriving DecidableEq

/-- The scraping loop of `sub_agent_fn`: for each URL, extract its text and,
when the text is truthy (non-empty), append it to `contents` and the URL to
`sites`; the `await asyncio.sleep(3)` politeness pause only delays and is not
modelled, and `fetch_full_text` is total so the `except` branch of the loop
is unreachable. -/
def scrapeLoop (env : AgentEnv) (urls : List (List Char)) :
    List (List Char) × List (List Char) :=
  urls.foldl
    (fun acc u =>
      let content := fetch_full_text (env.fetch u) u
      if content.isEmpty then acc else (acc.1 ++ [content], acc.2 ++ [u]))
    ([], [])

/-- `sub_agent_fn name query`: search, scrape the first two URLs, rank and
hard-truncate the scraped texts, and ask the LLM; each degraded stage returns
its placeholder dictionary. -/
def sub_agent_fn (name query : List Char) (env : AgentEnv) : SectionResult :=
  let urls := robust_search query env.search
  if urls.isEmpty then
    ⟨name ++ ": No useful links found for query: ".toList ++ query, []⟩
  else
    let scraped := scrapeLoop env (urls.take 2)
    if scraped.1.isEmpty then
      ⟨name ++ ": No content scraped for: ".toList ++ query, scraped.2⟩
    else
      let full_context := rank_and_select_contexts env.sim query scraped.1
      let _safe_context := truncate_context full_context
      let answer :=
        match env.llm with
        | .ok text => text
        | .error e => name ++ ": LLM failed to respond due to: ".toList ++ e
      ⟨answer, scraped.2⟩

/-- Both components of the scraping loop state grow together: the collected
texts and the collected URLs always have the same length. -/
theorem scrapeLoop_lengths (env : AgentEnv) (urls : List (List Char)) :
    (scrapeLoop env urls).1.length = (scrapeLoop env urls).2.length := by
  suffices h : ∀ (cs ss : List (List Char)), cs.length = ss.length →
      (urls.foldl
        (fun acc u =>
          let content := fetch_full_text (env.fetch u) u
          if content.isEmpty then acc else (acc.1 ++ [content], acc.2 ++ [u]))
        (cs, ss)).1.length =
      (urls.foldl
        (fun acc u =>
          let content := fetch_full_text (env.fetch u) u
          if content.isEmpty then acc else (acc.1 ++ [content], acc.2 ++ [u]))
        (cs, ss)).2.length from h [] [] rfl
  induction urls with
  | nil => intro cs ss h; simpa using h
  | cons u rest ih =>
    intro cs ss h
    simp only [List.foldl_cons]
    by_cases hc : (fetch_full_text (env.fetch u) u).isEmpty
    · simpa [hc] using ih cs ss h
    · simpa [hc] using ih (cs ++ [fetch_full_text (env.fetch u) u]) (ss ++ [u]) (by simp [h])

/-!
`ResearchDatabase.save_final_report` from `db.py`.  The report dictionary
maps section names to JSON values; only values that are Python strings
contribute to the stored word count (`isinstance(section_content, str)`).
The sqlite insert itself is external; the row it writes is modelled as a
structure holding the computed fields.
-/

/-- A JSON value stored in a report section: a string, a list of strings
(such as the sources section), or anything else. -/
inductive ReportValue
  | str (s : List Char)
  | strList (l : List (List Char))
  | other
deriving DecidableEq

/-- The word-count loop of `save_final_report`: fold over the dictionary
values, adding the whitespace-split word count of each string value. -/
def report_word_count (report : List (List Char × ReportValue)) : Nat :=
  report.foldl
    (fun wc kv =>
      match kv.2 with
      | .str s => wc + (pySplit s).length
      | _ => wc)
    0

/-- The row inserted into `final_reports`. -/
structure FinalReportRow where
  session_id : List Char
  structure_id : List Char
  report_data : List (List Char × ReportValue)
  word_count : Nat

/-- `save_final_report`: compute the word count of the string-valued sections
and insert the row (the generated UUID and timestamps are external). -/
def save_final_report (session_id structure_id : List Char)
    (report_data : List (List Char × ReportValue)) : FinalReportRow :=
  ⟨session_id, structure_id, report_data, report_word_count report_data⟩

/-!
Claim theorems.
-/

/-- C1 (counterexample): the claim says a text of at most 9000 words is
returned unchanged, but `truncate_context` rejoins the split words with
single spaces, so the 2-word text made of the letter a, a newline, and the
letter b comes back with the newline replaced by a space. -/
theorem truncate_context_not_unchanged :
    (pySplit ['a', '\n', 'b']).length ≤ MAX_WORD_LIMIT ∧
    truncate_context ['a', '\n', 'b'] = ['a', ' ', 'b'] ∧
    truncate_context ['a', '\n', 'b'] ≠ ['a', '\n', 'b'] := by
  refine ⟨?_, ?_, ?_⟩ <;> decide

/-- Unfolding equation of the truncator, for targeted rewriting. -/
theorem truncate_context_eq (text : List Char) :
    truncate_context text =
      pyJoin [' '] ((pySplit text).take MAX_WORD_LIMIT) ++
        (if MAX_WORD_LIMIT < (pySplit text).length then TRUNC_MARKER else []) := rfl

/-- Taking exactly the length of the left part of an append yields it. -/
theorem take_append_own {α : Type} (l l' : List α) (n : Nat) (h : l.length = n) :
    (l ++ l').take n = l := by
  subst h
  exact List.take_left l l'

/-- C1 (amended): for EVERY text with at most 9000 whitespace-split words,
`truncate_context` returns the single-space join of the words of the text —
so it returns the text unchanged exactly when the text already equals its
space-normal form — and for every text with more than 9000 words it returns
the first 9000 words joined by single spaces followed by the truncation
marker. -/
theorem truncate_context_word_join (text : List Char) :
    ((pySplit text).length ≤ MAX_WORD_LIMIT →
      truncate_context text = pyJoin [' '] (pySplit text) ∧
      (truncate_context text = text ↔ text = pyJoin [' '] (pySplit text))) ∧
    (MAX_WORD_LIMIT < (pySplit text).length →
      truncate_context text =
        pyJoin [' '] ((pySplit text).take MAX_WORD_LIMIT) ++ TRUNC_MARKER) := by
  constructor
  · intro hle
    have hjoin : truncate_context text = pyJoin [' '] (pySplit text) := by
      rw [truncate_context_eq, List.take_of_length_le hle,
        if_neg (not_lt.mpr hle), List.append_nil]
    refine ⟨hjoin, ?_⟩
    rw [hjoin]
    exact eq_comm
  · intro hgt
    rw [truncate_context_eq, if_pos hgt]

/-- C1 (witness): the irregular-whitespace two-word text made of the letter
a, a newline, and the letter b is within budget and comes back as the
space-join of its words. -/
theorem truncate_context_word_join_witness :
    (pySplit ['a', '\n', 'b']).length ≤ MAX_WORD_LIMIT ∧
    truncate_context ['a', '\n', 'b'] = pyJoin [' '] (pySplit ['a', '\n', 'b']) :=
  ⟨by decide, ((truncate_context_word_join ['a', '\n', 'b']).1 (by decide)).1⟩

/-- C7 (confirmed): `truncate_context` is idempotent on every input; in
particular re-truncating the output produced from an over-long text (its
first 9000 words plus the marker) is a no-op, because the marker only adds
one word and re-truncation reproduces the same first 9000 words and
re-appends the same marker. -/
theorem truncate_context_idempotent (text : List Char) :
    truncate_context (truncate_context text) = truncate_context text := by
  have hwf := pySplit_words_wf text
  by_cases h : MAX_WORD_LIMIT < (pySplit text).length
  · have h1 : truncate_context text =
        pyJoin [' '] ((pySplit text).take MAX_WORD_LIMIT) ++ TRUNC_MARKER := by
      unfold truncate_context
      simp [h]
    have hTwf : ∀ w ∈ (pySplit text).take MAX_WORD_LIMIT,
        w ≠ [] ∧ ∀ c ∈ w, ¬ c.isWhitespace :=
      fun w hw => hwf w (List.take_subset _ _ hw)
    have h2 : pySplit (truncate_context text) =
        (pySplit text).take MAX_WORD_LIMIT ++ ["...[TRUNCATED]".toList] := by
      rw [h1, pySplit_join_marker _ hTwf]
    have hlen : ((pySplit text).take MAX_WORD_LIMIT).length = MAX_WORD_LIMIT := by
      rw [List.length_take]
      omega
    have h3 : MAX_WORD_LIMIT < (pySplit (truncate_context text)).length := by
      rw [h2]
      simp [hlen]
    have hcond : MAX_WORD_LIMIT <
        ((pySplit text).take MAX_WORD_LIMIT ++ ["...[TRUNCATED]".toList]).length := by
      simp [hlen]
    rw [truncate_context_eq (truncate_context text), h2,
      take_append_own _ _ _ hlen, if_pos hcond]
    exact h1.symm
  · push_neg at h
    have h1 : truncate_context text = pyJoin [' '] (pySplit text) := by
      rw [truncate_context_eq, List.take_of_length_le h, if_neg (not_lt.mpr h),
        List.append_nil]
    have h2 : pySplit (truncate_context text) = pySplit text := by
      rw [h1, pySplit_pyJoin_space _ hwf]
    rw [truncate_context_eq (truncate_context text), h2, List.take_of_length_le h,
      if_neg (not_lt.mpr h), List.append_nil]
    exact h1.symm

/-- Word count of the space-join of `n` copies of a one-character word. -/
theorem pySplit_length_replicate (n : Nat) (c : Char) (hc : ¬ c.isWhitespace) :
    (pySplit (pyJoin [' '] (List.replicate n [c]))).length = n := by
  rw [pySplit_pyJoin_space]
  · exact List.length_replicate n [c]
  · intro w hw
    rw [List.eq_of_mem_replicate hw]
    exact ⟨by simp, by simpa using hc⟩

/-- Unfolding equation of the selection loop, for targeted rewriting. -/
theorem select_contexts_cons (doc : List Char) (rest : List (List Char)) (total : Nat) :
    select_contexts (doc :: rest) total =
      if MAX_WORD_LIMIT < total + (pySplit doc).length then []
      else doc :: select_contexts rest (total + (pySplit doc).length) := rfl

/-- Under a constant similarity oracle all scores tie, and the stable sort
keeps the input order. -/
theorem rankedDocs_const (query : List Char) (docs : List (List Char)) :
    rankedDocs (fun _ _ => (0 : ℚ)) query docs = docs := by
  have h : ∀ l : List (List Char),
      List.insertionSort (fun a b : ℚ × List Char => b.1 ≤ a.1)
        (l.map (fun d => ((0 : ℚ), d))) = l.map (fun d => ((0 : ℚ), d)) := by
    intro l
    induction l with
    | nil => rfl
    | cons d ds ih =>
      simp only [List.map_cons, List.insertionSort, ih]
      cases ds with
      | nil => rfl
      | cons d2 ds2 =>
        simp only [List.map_cons, List.orderedInsert]
        rw [if_pos (le_refl (0 : ℚ))]
  show (List.insertionSort (fun a b : ℚ × List Char => b.1 ≤ a.1)
      (docs.map (fun d => ((0 : ℚ), d)))).map Prod.snd = docs
  rw [h, List.map_map]
  simp

/-- C5 (confirmed): the selection loop is greedy with a hard stop — it always
returns an initial segment of the ranked list, so once a document is refused
nothing after it is back-filled — and on documents of word counts 6000, 4000
and 500 in score order exactly the first document is selected, because
6000 + 4000 exceeds the 9000-word cap even though the 500-word document alone
would fit. -/
theorem select_contexts_greedy_stop (sim : List Char → List Char → ℚ)
    (query d1 d2 d3 : List Char)
    (h1 : (pySplit d1).length = 6000)
    (h2 : (pySplit d2).length = 4000)
    (h3 : (pySplit d3).length = 500)
    (hrank : rankedDocs sim query [d1, d2, d3] = [d1, d2, d3]) :
    (∀ (l : List (List Char)) (total : Nat), ∃ k, select_contexts l total = l.take k) ∧
    select_contexts (rankedDocs sim query [d1, d2, d3]) 0 = [d1] ∧
    rank_and_select_contexts sim query [d1, d2, d3] = d1 ∧
    select_contexts [d3] 0 = [d3] := by
  have hsel : select_contexts (rankedDocs sim query [d1, d2, d3]) 0 = [d1] := by
    rw [hrank, select_contexts_cons, h1, if_neg (by norm_num [MAX_WORD_LIMIT]),
      select_contexts_cons, h2, if_pos (by norm_num [MAX_WORD_LIMIT])]
  have hfit : select_contexts [d3] 0 = [d3] := by
    rw [select_contexts_cons, h3, if_neg (by norm_num [MAX_WORD_LIMIT])]
    rfl
  refine ⟨select_contexts_eq_take, hsel, ?_, hfit⟩
  unfold rank_and_select_contexts
  rw [hsel]
  rfl

/-- C5 (witness): with a constant similarity oracle (ties keep input order,
so the score order is the input order) and concrete documents of 6000, 4000
and 500 one-letter words, the ranking step returns exactly the first
document. -/
theorem select_contexts_greedy_stop_witness :
    rank_and_select_contexts (fun _ _ => (0 : ℚ)) []
      [pyJoin [' '] (List.replicate 6000 ['a']),
       pyJoin [' '] (List.replicate 4000 ['b']),
       pyJoin [' '] (List.replicate 500 ['c'])] =
      pyJoin [' '] (List.replicate 6000 ['a']) := by
  have hrank : rankedDocs (fun _ _ => (0 : ℚ)) []
      [pyJoin [' '] (List.replicate 6000 ['a']),
       pyJoin [' '] (List.replicate 4000 ['b']),
       pyJoin [' '] (List.replicate 500 ['c'])] =
      [pyJoin [' '] (List.replicate 6000 ['a']),
       pyJoin [' '] (List.replicate 4000 ['b']),
       pyJoin [' '] (List.replicate 500 ['c'])] :=
    rankedDocs_const [] _
  exact (select_contexts_greedy_stop (fun _ _ => (0 : ℚ)) [] _ _ _
    (pySplit_length_replicate 6000 'a' (by decide))
    (pySplit_length_replicate 4000 'b' (by decide))
    (pySplit_length_replicate 500 'c' (by decide))
    hrank).2.2.1

/-- C6 (confirmed): the string assembled by the ranking step always has at
most 9000 whitespace-split words, and it is exactly the blank-line join of an
initial segment of the ranked document list, so every selected document
appears in it in full. -/
theorem rank_and_select_contexts_budget (sim : List Char → List Char → ℚ)
    (query : List Char) (docs : List (List Char)) :
    (pySplit (rank_and_select_contexts sim query docs)).length ≤ MAX_WORD_LIMIT ∧
    ∃ k, rank_and_select_contexts sim query docs =
      pyJoin ['\n', '\n'] ((rankedDocs sim query docs).take k) := by
  constructor
  · unfold rank_and_select_contexts
    rw [pySplit_length_join]
    have := select_contexts_budget (rankedDocs sim query docs) 0 (by norm_num [MAX_WORD_LIMIT])
    omega
  · obtain ⟨k, hk⟩ := select_contexts_eq_take (rankedDocs sim query docs) 0
    refine ⟨k, ?_⟩
    unfold rank_and_select_contexts
    rw [hk]

/-- C8 (confirmed): the provider chain walks the five providers in the fixed
priority order and stops at the first one whose filtered result is non-empty,
returning exactly that provider's accepted URLs.  In particular, when the
first provider returns nothing and the second yields accepted URLs, the
result is exactly those URLs and the outcomes of providers three to five are
irrelevant (they are never consulted); and in general the loop computes the
first non-empty filtered provider result. -/
theorem robust_search_short_circuit (query : List Char) (env : SearchEnv)
    (h1 : brave_search query env.brave = [])
    (h2 : (search_arvix query env.arvix).filter acceptUrl ≠ []) :
    robust_search query env = (search_arvix query env.arvix).filter acceptUrl ∧
    (∀ env2 : SearchEnv, env2.brave = env.brave → env2.arvix = env.arvix →
      robust_search query env2 = robust_search query env) ∧
    (∀ rs : List (List (List Char)), robustLoop [] rs =
      ((rs.map (fun r => r.filter acceptUrl)).find? (fun l => !l.isEmpty)).getD []) := by
  have key : ∀ env2 : SearchEnv, env2.brave = env.brave → env2.arvix = env.arvix →
      robust_search query env2 = (search_arvix query env.arvix).filter acceptUrl := by
    intro env2 hb ha
    unfold robust_search providerResults
    rw [hb, ha, robustLoop_eq_find]
    have e1 : (brave_search query env.brave).filter acceptUrl = [] := by
      rw [h1]
      rfl
    have p2 : (!((search_arvix query env.arvix).filter acceptUrl).isEmpty) = true := by
      simpa [List.isEmpty_iff] using h2
    simp [List.find?_cons, e1, p2]
  exact ⟨key env rfl rfl,
    fun env2 hb ha => (key env2 hb ha).trans (key env rfl rfl).symm,
    robustLoop_eq_find⟩

-- A search environment where the first provider fails and the academic
-- pre-print provider yields two accepted abs-page URLs.
def c8Env : SearchEnv :=
  ⟨.error (),
   .ok [some ("https://arxiv.org/abs/2301.12345".toList, "search engines".toList),
        some ("https://arxiv.org/abs/2302.54321".toList, "web search".toList)],
   .error (), [], .error ()⟩

/-- C8 (witness): with the first provider failing and the pre-print provider
returning two valid abs-page URLs with titles sharing a keyword with the
query, the chain returns exactly those two URLs. -/
theorem robust_search_short_circuit_witness :
    robust_search "search".toList c8Env =
      ["https://arxiv.org/abs/2301.12345".toList,
       "https://arxiv.org/abs/2302.54321".toList] := by
  have h := (robust_search_short_circuit "search".toList c8Env (by decide)
    (by decide)).1
  rw [h]
  decide

/-- The DuckDuckGo retry loop returns the empty list when every attempt
raises. -/
theorem ddgAttempts_all_fail (l : List (Except Unit (List DdgItem)))
    (h : ∀ a ∈ l, a = .error ()) : ddgAttempts l = [] := by
  induction l with
  | nil => rfl
  | cons a rest ih =>
    have ha := h a (List.mem_cons_self _ _)
    subst ha
    exact ih (fun x hx => h x (List.mem_cons_of_mem _ hx))

/-- C9 (confirmed): each of the five provider variants returns the empty URL
sequence when its underlying external call fails, for every query; the
variants are total functions of the call outcome, so no exception propagates
to the caller.  For the retrying general-web variant, failure means every
attempt raises. -/
theorem providers_fail_return_empty (query : List Char)
    (attempts : List (Except Unit (List DdgItem)))
    (hall : ∀ a ∈ attempts, a = .error ()) :
    brave_search query (.error ()) = [] ∧
    search_arvix query (.error ()) = [] ∧
    semantic_search_scholar query (.error ()) = [] ∧
    search_duckduckgo query attempts = [] ∧
    search_google query (.error ()) = [] := by
  refine ⟨rfl, rfl, rfl, ?_, rfl⟩
  unfold search_duckduckgo
  exact ddgAttempts_all_fail _ (fun a ha => hall a (List.take_subset _ _ ha))

/-- C9 (witness): with three failed attempts, the retrying variant returns
the empty sequence, as do the other four variants on a failed call. -/
theorem providers_fail_return_empty_witness :
    brave_search "q".toList (.error ()) = [] ∧
    search_arvix "q".toList (.error ()) = [] ∧
    semantic_search_scholar "q".toList (.error ()) = [] ∧
    search_duckduckgo "q".toList [.error (), .error (), .error ()] = [] ∧
    search_google "q".toList (.error ()) = [] :=
  providers_fail_return_empty "q".toList [.error (), .error (), .error ()]
    (by intro a ha; fin_cases ha <;> rfl)

/-- C4 (counterexample): the validator is used through re.match, which only
anchors at the start of the string, so a URL carrying the abs-page pattern
followed by further characters is accepted by the pre-print search although
the claimed pattern-and-nothing-else validator rejects it. -/
theorem search_arvix_accepts_trailing :
    "https://arxiv.org/abs/2301.12345extra".toList ∈
      search_arvix "quantum".toList
        (.ok [some ("https://arxiv.org/abs/2301.12345extra".toList,
                    "Quantum Computing".toList)]) ∧
    arxivFullMatch "https://arxiv.org/abs/2301.12345extra".toList = false := by
  constructor <;> decide

/-- C4 (amended): an entry URL is accepted by the pre-print search only if it
STARTS WITH the strict abs-page pattern — four digits, a dot, five digits —
with any trailing characters (such as a version suffix, or anything else)
left unexamined, and only if the normalized query keywords intersect the
normalized tokens of the lowercased entry title; the all-letters identifier
URL is rejected by the validator and the versioned one is accepted. -/
theorem search_arvix_filter_characterization (query : List Char)
    (entries : List ArxivEntry) (u : List Char)
    (hu : u ∈ search_arvix query (.ok entries)) :
    arxivValidMatch u = true ∧
    (∃ t, some (u, t) ∈ entries ∧
      (queryKeywords query).any
        (fun w => (titleTokens (t.map Char.toLower)).contains w) = true) ∧
    arxivValidMatch "https://arxiv.org/abs/abcde.12345".toList = false ∧
    arxivValidMatch "https://arxiv.org/abs/2301.12345v2".toList = true := by
  refine ⟨?_, ?_, by decide, by decide⟩ <;>
  · simp only [search_arvix, List.mem_filterMap] at hu
    obtain ⟨e, he, hfe⟩ := hu
    match e with
    | none => simp at hfe
    | some (u0, t0) =>
      simp only at hfe
      split at hfe
      case isTrue hcond =>
        rw [Option.some.injEq] at hfe
        subst hfe
        rw [Bool.and_eq_true] at hcond
        first
        | exact hcond.1
        | exact ⟨t0, he, hcond.2⟩
      case isFalse hcond => simp at hfe

-- A response whose single entry carries the versioned abs-page URL of the
-- claim and a title sharing the keyword with the query.
def c4Entries : List ArxivEntry :=
  [some ("https://arxiv.org/abs/2301.12345v2".toList, "Quantum Computing".toList)]

/-- C4 (witness): the versioned abs-page URL with an intersecting title is
accepted, so the amended characterization applies to it. -/
theorem search_arvix_filter_characterization_witness :
    arxivValidMatch "https://arxiv.org/abs/2301.12345v2".toList = true ∧
    (∃ t, some ("https://arxiv.org/abs/2301.12345v2".toList, t) ∈ c4Entries ∧
      (queryKeywords "quantum".toList).any
        (fun w => (titleTokens (t.map Char.toLower)).contains w) = true) ∧
    arxivValidMatch "https://arxiv.org/abs/abcde.12345".toList = false ∧
    arxivValidMatch "https://arxiv.org/abs/2301.12345v2".toList = true :=
  search_arvix_filter_characterization "quantum".toList c4Entries
    "https://arxiv.org/abs/2301.12345v2".toList (by decide)

/-- C2 (counterexample): on an HTTP 200 response the direct fetch returns its
paragraph text without checking whether it is empty, so with a 200 response
whose page has no paragraph text and an article extractor that would succeed
with non-empty text, the source returns the empty string while the claimed
stop-at-first-NON-EMPTY chain would return the article text. -/
theorem fetch_full_text_empty_200_returns :
    fetch_full_text ⟨.ok (200, []), .ok ['x'], .ok ['y']⟩ ['u'] = [] ∧
    fetch_full_text_spec ⟨.ok (200, []), .ok ['x'], .ok ['y']⟩ ['u'] = ['x'] ∧
    fetch_full_text ⟨.ok (200, []), .ok ['x'], .ok ['y']⟩ ['u'] ≠
      fetch_full_text_spec ⟨.ok (200, []), .ok ['x'], .ok ['y']⟩ ['u'] := by
  refine ⟨?_, ?_, ?_⟩ <;> decide

/-- C2 (amended): for every URL passing the arXiv guard, the extractor tries
the three strategies in order and stops at the first one that COMPLETES —
HTTP 200 for the direct fetch, absence of an exception for the other two —
returning that strategy's text even when it is empty; a strategy falls
through only when it raises (or, for the direct fetch, the status is not
200), and the empty string is returned when no strategy completes. -/
theorem fetch_full_text_first_completed (env : FetchEnv) (url : List Char)
    (hguard : (hasSub ARXIV_ABS_SUBSTR url && !arxivValidMatch url) = false) :
    fetch_full_text env url = ((strategyOutcomes env).findSome? id).getD [] := by
  obtain ⟨req, art, ren⟩ := env
  unfold fetch_full_text strategyOutcomes
  rw [if_neg (by simp [hguard])]
  cases req with
  | ok p =>
    obtain ⟨status, text⟩ := p
    by_cases hs : status = 200
    · simp [hs, List.findSome?]
    · cases art <;> cases ren <;> simp [hs, List.findSome?]
  | error e => cases art <;> cases ren <;> simp [List.findSome?]

/-- C2 (witness): a failing direct fetch falls through to a completing
article extraction, whose text is the overall result as the first completed
strategy. -/
theorem fetch_full_text_first_completed_witness :
    (hasSub ARXIV_ABS_SUBSTR ['u'] && !arxivValidMatch ['u']) = false ∧
    fetch_full_text ⟨.error (), .ok ['x'], .error ()⟩ ['u'] =
      ((strategyOutcomes ⟨.error (), .ok ['x'], .error ()⟩).findSome? id).getD [] :=
  ⟨by decide, fetch_full_text_first_completed ⟨.error (), .ok ['x'], .error ()⟩ ['u']
    (by decide)⟩

-- A synthesis environment in which the search resolves one URL whose page
-- answers HTTP 200 with no paragraph text, so extraction is attempted and
-- yields nothing.
def c3Env : AgentEnv :=
  ⟨⟨.ok (some [some ['u']]), .error (), .error (), [], .error ()⟩,
   fun _ => ⟨.ok (200, []), .error (), .error ()⟩,
   fun _ _ => 0,
   .ok ['z']⟩

/-- C3 (counterexample): extraction of the resolved URL is attempted and
yields no content, yet the no-content placeholder carries an EMPTY sources
list — the attempted URL is not in it, against the claim that every
attempted URL is. -/
theorem sub_agent_no_content_drops_attempted :
    (robust_search ['q'] c3Env.search).take 2 = [['u']] ∧
    (sub_agent_fn ['n'] ['q'] c3Env).result =
      ['n'] ++ ": No content scraped for: ".toList ++ ['q'] ∧
    (sub_agent_fn ['n'] ['q'] c3Env).sources = [] ∧
    ['u'] ∉ (sub_agent_fn ['n'] ['q'] c3Env).sources := by
  refine ⟨?_, ?_, ?_, ?_⟩ <;> decide

/-- C3 (amended): a synthesis call that resolved URLs but whose extractions
all yielded empty content returns the no-content placeholder with an EMPTY
sources list: the loop records a URL only together with non-empty content,
so when no content was collected no URL was recorded either. -/
theorem sub_agent_no_content_sources_empty (name query : List Char) (env : AgentEnv)
    (hurls : (robust_search query env.search).isEmpty = false)
    (hempty : (scrapeLoop env ((robust_search query env.search).take 2)).1 = []) :
    sub_agent_fn name query env =
      ⟨name ++ ": No content scraped for: ".toList ++ query, []⟩ := by
  have hsites : (scrapeLoop env ((robust_search query env.search).take 2)).2 = [] := by
    have hl := scrapeLoop_lengths env ((robust_search query env.search).take 2)
    rw [hempty] at hl
    exact List.length_eq_zero.mp hl.symm
  unfold sub_agent_fn
  rw [if_neg (by simp [hurls])]
  rw [if_pos (by simp [hempty])]
  rw [hsites]

/-- C3 (witness): the amended no-content placeholder on the concrete
environment of the counterexample. -/
theorem sub_agent_no_content_sources_empty_witness :
    (robust_search ['q'] c3Env.search).isEmpty = false ∧
    sub_agent_fn ['n'] ['q'] c3Env =
      ⟨['n'] ++ ": No content scraped for: ".toList ++ ['q'], []⟩ :=
  ⟨by decide, sub_agent_no_content_sources_empty ['n'] ['q'] c3Env (by decide) (by decide)⟩

/-- The word-count fold of `save_final_report` equals the accumulator plus
the sum of the word counts of the string-valued sections. -/
theorem report_word_count_foldl (report : List (List Char × ReportValue)) :
    ∀ n : Nat,
      report.foldl
        (fun wc kv =>
          match kv.2 with
          | .str s => wc + (pySplit s).length
          | _ => wc)
        n =
      n + ((report.filterMap (fun kv =>
        match kv.2 with
        | .str s => some ((pySplit s).length)
        | _ => none)).sum) := by
  induction report with
  | nil => intro n; simp
  | cons kv rest ih =>
    intro n
    obtain ⟨k, v⟩ := kv
    cases v with
    | str s => simp [List.foldl_cons, List.filterMap_cons, ih, Nat.add_assoc]
    | strList l => simp [List.foldl_cons, List.filterMap_cons, ih]
    | other => simp [List.foldl_cons, List.filterMap_cons, ih]

/-- C10 (confirmed): the word count stored by `save_final_report` is the sum,
over exactly the string-valued sections of the report dictionary, of their
whitespace-split word counts; appending a non-string section (such as a list
of source URLs) leaves the stored word count unchanged. -/
theorem save_final_report_word_count (session_id structure_id : List Char)
    (report : List (List Char × ReportValue)) :
    (save_final_report session_id structure_id report).word_count =
      ((report.filterMap (fun kv =>
        match kv.2 with
        | .str s => some ((pySplit s).length)
        | _ => none)).sum) ∧
    (∀ (key : List Char) (urls : List (List Char)),
      report_word_count (report ++ [(key, ReportValue.strList urls)]) =
        report_word_count report) := by
  constructor
  · show report_word_count report = _
    unfold report_word_count
    simpa using report_word_count_foldl report 0
  · intro key urls
    unfold report_word_count
    rw [report_word_count_foldl, report_word_count_foldl]
    simp [List.filterMap_append]









